import Mathlib

/-!
Shallow embedding of the `peppermint` test-fixture factory library
(`src/peppermint/descriptors.py`, `src/peppermint/factories.py`).

Modelling conventions:
* Python runtime values are modelled by the inductive `Value`.  Randomness
  (the `random` module, the faker provider, `uuid.uuid4`, quantized decimal
  draws) is modelled symbolically: a single entropy stream indexed by a
  natural-number position; a draw records the operation performed and the
  position consumed, and advances the position by one.  Python floats are
  modelled by `Rat`; this only affects which arguments a symbolic draw
  records, never control flow.
* Python dicts are insertion-ordered association lists; `dictSet` implements
  `d[k] = v` (update in place when the key exists, append otherwise) and
  `pyUpdate` implements `d.update(e)`.
* Mutable per-descriptor state (`SequenceDescriptor._counter`) and the
  entropy position are threaded explicitly through a `RState`.  `RState.log`
  is ghost instrumentation: the list of field names on which the resolution
  algorithm called `descriptor.resolve`, in call order; it never influences
  any produced value.
* Raised exceptions are modelled by `Except String`, carrying the message of
  the corresponding Python exception.
* Scope: `SubFactoryDescriptor` / `SubListFactoryDescriptor` (nested model
  builders) are outside the embedded descriptor universe; none of the
  verified claims depends on them.
-/

/-- A Python runtime value, with randomness represented symbolically.
`fake m p` is the result of calling faker method `m` (arguments encoded in
the string) at entropy position `p`; `uniform lo hi p`, `randint lo hi p`,
`gauss mean stdev p`, `randChoice i p` (and friends) are the corresponding
`random`-module draws; `uuid p` is `uuid.uuid4()`; `quantized v places` is
`Decimal.quantize` with round-half-up; `formatted f n` is the Python string
`f.format(n)`; `boundMethod m` is a bound attribute `m` of a dict obtained
through `getattr`. -/
inductive Value where
  | int (n : Int)
  | str (s : String)
  | bool (b : Bool)
  | rat (q : Rat)
  | none
  | list (xs : List Value)
  | dict (xs : List (String × Value))
  | fake (method : String) (pos : Nat)
  | uniform (lo hi : Rat) (pos : Nat)
  | randint (lo hi : Int) (pos : Nat)
  | gauss (mean stdev : Rat) (pos : Nat)
  | randString (alphabet : String) (length : Int) (pos : Nat)
  | randBytes (n : Int) (pos : Nat)
  | randChoice (xs : List Value) (pos : Nat)
  | randSample (xs : List Value) (k : Int) (pos : Nat)
  | randChoices (xs : List Value) (k : Int) (pos : Nat)
  | uuid (pos : Nat)
  | quantized (v : Value) (places : Int)
  | formatted (fmt : String) (n : Int)
  | boundMethod (name : String)

/-- An insertion-ordered Python dict with string keys. -/
abbrev Dict := List (String × Value)

/-- `d.get(k)`: first binding of key `k`. -/
def dictGet {α : Type} (d : List (String × α)) (k : String) : Option α :=
  match d with
  | [] => Option.none
  | (k', v) :: rest => if k' = k then some v else dictGet rest k

/-- `d[k] = v` on an insertion-ordered dict: overwrite the value in place
when the key is present (position preserved), otherwise append. -/
def dictSet {α : Type} (d : List (String × α)) (k : String) (v : α) :
    List (String × α) :=
  match d with
  | [] => [(k, v)]
  | (k', v') :: rest =>
      if k' = k then (k', v) :: rest else (k', v') :: dictSet rest k v

/-- `d.update(e)`: apply `dictSet` for each binding of `e` in order. -/
def pyUpdate {α : Type} (d e : List (String × α)) : List (String × α) :=
  match e with
  | [] => d
  | (k, v) :: rest => pyUpdate (dictSet d k v) rest

/-- The attribute names a Python `dict` instance exposes to `getattr`
(its non-dunder methods; factory field names never use dunder names, which
are omitted).  `ModelProxy.__getattr__` falls back to
`getattr(self._data, name)` after the mapping lookup misses, and in this
code base `_data` is always a dict. -/
def dictAttrNames : List String :=
  ["clear", "copy", "fromkeys", "get", "items", "keys", "pop", "popitem",
   "setdefault", "update", "values"]

/-- `ModelProxy.__getattr__` (descriptors.py lines 25-36) over a dict
`_data`: try the mapping lookup; on `KeyError` fall back to
`getattr(self._data, name)` (which succeeds exactly for the dict's own
attribute names); if that also fails, raise
`AttributeError: Field "<name>" not yet resolved or does not exist.`. -/
def proxyGetattr (data : Dict) (name : String) : Except String Value :=
  match dictGet data name with
  | some v => .ok v
  | Option.none =>
      if name ∈ dictAttrNames then .ok (Value.boundMethod name)
      else .error ("Field \"" ++ name ++ "\" not yet resolved or does not exist.")

example : proxyGetattr [("a", .int 1)] "a" = .ok (.int 1) := rfl
example : proxyGetattr [] "items" = .ok (.boundMethod "items") := rfl
example : proxyGetattr [] "b" =
    .error "Field \"b\" not yet resolved or does not exist." := rfl

/-! ## Python type annotations (for auto-inference) -/

/-- The scalar classes the auto-inference tables test with `is`. -/
inductive PyPrim where
  | str | int | float | bool | datetime | date | time | decimal | uuid | bytes
  deriving DecidableEq, Repr

/-- A Python type annotation as seen by `typing.get_args` / `typing.get_origin`.
`bareList` / `bareDict` are the unsubscripted builtins `list` / `dict`
(whose origin is `None`); `listOf t` / `dictOf k v` are the subscripted
generic aliases `list[t]` / `dict[k, v]`; `optional t` is the two-member
union `t | None` (the only union shape the claims involve); `other` is any
further class (e.g. `object`). -/
inductive PyType where
  | prim (p : PyPrim)
  | noneType
  | bareList
  | bareDict
  | listOf (t : PyType)
  | dictOf (k v : PyType)
  | optional (t : PyType)
  | other (name : String)
  deriving DecidableEq, Repr

/-- `typing.get_args`: subscript arguments of a generic alias or the members
of a union; `[]` for plain classes (including bare `list` / `dict`). -/
def typeGetArgs : PyType → List PyType
  | .listOf t => [t]
  | .dictOf k v => [k, v]
  | .optional t => [t, .noneType]
  | _ => []

/-- `typing.get_origin(t) is list`: true exactly for subscripted `list[...]`
(the bare builtin `list` has origin `None`). -/
def originIsList : PyType → Bool
  | .listOf _ => true
  | _ => false

/-- `typing.get_origin(t) is dict`: true exactly for subscripted `dict[...]`. -/
def originIsDict : PyType → Bool
  | .dictOf _ _ => true
  | _ => false

/-- `_unwrap_optional` (descriptors.py lines 242-248): take `get_args`; if
non-empty and exactly one argument is not `NoneType`, return that argument,
else return the type unchanged.  Note this fires for any one-argument
generic alias, e.g. it maps `list[int]` to `int`. -/
def unwrapOptional (t : PyType) : PyType :=
  match typeGetArgs t with
  | [] => t
  | args =>
      match args.filter (fun a => a != PyType.noneType) with
      | [a] => a
      | _ => t

example : unwrapOptional (.optional (.prim .str)) = .prim .str := rfl
example : unwrapOptional (.listOf (.prim .int)) = .prim .int := rfl
example : unwrapOptional (.optional (.listOf (.prim .int))) = .listOf (.prim .int) := rfl
example : unwrapOptional (.dictOf (.prim .str) (.prim .int)) =
    .dictOf (.prim .str) (.prim .int) := rfl

/-! ## Auto-inference heuristic (`AutoDescriptor.resolve`) -/

/-- Name normalization from `AutoDescriptor.resolve`:
`self.field_name.lower().replace("_", "")`, character by character
(field names are ASCII identifiers, where Python `str.lower` and
`Char.toLower` agree). -/
def pyNormalize (s : String) : String :=
  String.mk ((s.data.map Char.toLower).filter (fun c => c != '_'))

/-- What a matched name-table entry calls: a faker method (arguments encoded
in the string) or `uuid.uuid4()`. -/
inductive AutoCall where
  | fakerCall (method : String)
  | uuid4
  deriving DecidableEq, Repr

/-- Perform an `AutoCall` at entropy position `r`. -/
def applyAutoCall : AutoCall → Nat → Value × Nat
  | .fakerCall m, r => (.fake m r, r + 1)
  | .uuid4, r => (.uuid r, r + 1)

/-- The ordered name-pattern table of `AutoDescriptor.resolve`
(descriptors.py lines 260-353): the first case whose normalized-name
pattern and type guard both hold wins; `none` when no case applies. -/
def nameMatch (name : String) (ft : PyType) : Option AutoCall :=
  if (name = "id" ∨ name = "uuid" ∨ name = "pk" ∨ name = "uid") ∧ ft = .prim .uuid then
    some .uuid4
  else if (name = "id" ∨ name = "pk") ∧ ft = .prim .int then
    some (.fakerCall "random_int(min=1)")
  else if (name = "firstname" ∨ name = "fname") ∧ ft = .prim .str then
    some (.fakerCall "first_name")
  else if (name = "lastname" ∨ name = "lname" ∨ name = "surname" ∨ name = "familyname") ∧ ft = .prim .str then
    some (.fakerCall "last_name")
  else if (name = "fullname" ∨ name = "name" ∨ name = "displayname") ∧ ft = .prim .str then
    some (.fakerCall "name")
  else if (name = "username" ∨ name = "login") ∧ ft = .prim .str then
    some (.fakerCall "user_name")
  else if (name = "jobtitle" ∨ name = "position" ∨ name = "role" ∨ name = "occupation") ∧ ft = .prim .str then
    some (.fakerCall "job")
  else if (name = "email" ∨ name = "emailaddress") ∧ ft = .prim .str then
    some (.fakerCall "email")
  else if (name = "phone" ∨ name = "phonenumber" ∨ name = "mobile") ∧ ft = .prim .str then
    some (.fakerCall "phone_number")
  else if (name = "street" ∨ name = "streetaddress" ∨ name = "address") ∧ ft = .prim .str then
    some (.fakerCall "street_address")
  else if (name = "city" ∨ name = "town") ∧ ft = .prim .str then
    some (.fakerCall "city")
  else if (name = "state" ∨ name = "region" ∨ name = "province") ∧ ft = .prim .str then
    some (.fakerCall "state")
  else if (name = "country" ∨ name = "countryname") ∧ ft = .prim .str then
    some (.fakerCall "country")
  else if name = "countrycode" ∧ ft = .prim .str then
    some (.fakerCall "country_code")
  else if (name = "zipcode" ∨ name = "postalcode" ∨ name = "postcode") ∧ ft = .prim .str then
    some (.fakerCall "postcode")
  else if (name = "companyname" ∨ name = "company" ∨ name = "organization" ∨ name = "org") ∧ ft = .prim .str then
    some (.fakerCall "company")
  else if (name = "description" ∨ name = "desc" ∨ name = "bio" ∨ name = "summary" ∨ name = "note" ∨ name = "notes") ∧ ft = .prim .str then
    some (.fakerCall "sentence")
  else if (name = "title" ∨ name = "heading") ∧ ft = .prim .str then
    some (.fakerCall "sentence(nb_words=4)")
  else if name = "slug" ∧ ft = .prim .str then
    some (.fakerCall "slug")
  else if (name = "url" ∨ name = "website" ∨ name = "homepage") ∧ ft = .prim .str then
    some (.fakerCall "url")
  else if (name = "ipaddress" ∨ name = "ip" ∨ name = "ipv4") ∧ ft = .prim .str then
    some (.fakerCall "ipv4")
  else if name = "ipv6" ∧ ft = .prim .str then
    some (.fakerCall "ipv6")
  else if (name = "macaddress" ∨ name = "mac") ∧ ft = .prim .str then
    some (.fakerCall "mac_address")
  else if (name = "useragent" ∨ name = "ua") ∧ ft = .prim .str then
    some (.fakerCall "user_agent")
  else if (name = "password" ∨ name = "passwd" ∨ name = "secret") ∧ ft = .prim .str then
    some (.fakerCall "password")
  else if (name = "token" ∨ name = "accesstoken" ∨ name = "apikey") ∧ ft = .prim .str then
    some (.fakerCall "sha256")
  else if name = "filename" ∧ ft = .prim .str then
    some (.fakerCall "file_name")
  else if (name = "filepath" ∨ name = "path") ∧ ft = .prim .str then
    some (.fakerCall "file_path")
  else if (name = "mimetype" ∨ name = "contenttype") ∧ ft = .prim .str then
    some (.fakerCall "mime_type")
  else if (name = "timezone" ∨ name = "tz") ∧ ft = .prim .str then
    some (.fakerCall "timezone")
  else if (name = "locale" ∨ name = "lang" ∨ name = "language") ∧ ft = .prim .str then
    some (.fakerCall "locale")
  else if (name = "color" ∨ name = "colour" ∨ name = "hexcolor") ∧ ft = .prim .str then
    some (.fakerCall "hex_color")
  else if (name = "birthdate" ∨ name = "dob" ∨ name = "dateofbirth") ∧ ft = .prim .date then
    some (.fakerCall "date_of_birth")
  else if (name = "startdate" ∨ name = "fromdate") ∧ ft = .prim .date then
    some (.fakerCall "date_object")
  else if (name = "enddate" ∨ name = "todate" ∨ name = "expirydate" ∨ name = "expiresat") ∧ ft = .prim .date then
    some (.fakerCall "date_object")
  else if (name = "createdat" ∨ name = "updatedat" ∨ name = "deletedat" ∨ name = "timestamp") ∧ ft = .prim .datetime then
    some (.fakerCall "date_time")
  else if (name = "publishedat" ∨ name = "postedat" ∨ name = "sentat") ∧ ft = .prim .datetime then
    some (.fakerCall "date_time")
  else if name = "age" ∧ ft = .prim .int then
    some (.fakerCall "random_int(min=0, max=120)")
  else if (name = "count" ∨ name = "quantity" ∨ name = "qty" ∨ name = "total") ∧ ft = .prim .int then
    some (.fakerCall "random_int(min=0, max=1000)")
  else if name = "port" ∧ ft = .prim .int then
    some (.fakerCall "port_number")
  else
    none

/-- The type-only fallback table of `AutoDescriptor.resolve`
(descriptors.py lines 355-379), applied when no name-table case matched.
The final `return None` (no table entry at all) yields `Value.none`. -/
def typeFallback (ft : PyType) (r : Nat) : Value × Nat :=
  if ft = .prim .str then (.fake "pystr" r, r + 1)
  else if ft = .prim .int then (.fake "random_int" r, r + 1)
  else if ft = .prim .float then (.fake "pyfloat" r, r + 1)
  else if ft = .prim .bool then (.fake "boolean" r, r + 1)
  else if ft = .prim .datetime then (.fake "date_time" r, r + 1)
  else if ft = .prim .date then (.fake "date_object" r, r + 1)
  else if ft = .prim .time then (.fake "time_object" r, r + 1)
  else if ft = .prim .decimal then (.fake "pydecimal" r, r + 1)
  else if ft = .prim .uuid then (.uuid r, r + 1)
  else if ft = .prim .bytes then (.fake "binary(length=16)" r, r + 1)
  else if originIsList ft then (.list [], r)
  else if originIsDict ft then (.dict [], r)
  else (.none, r)

/-- `AutoDescriptor.resolve` (descriptors.py lines 256-379): unwrap one
optional level, normalize the field name, try the name-pattern table, then
the type-only table, else `None`. -/
def autoResolve (fieldName : String) (fieldType : PyType) (r : Nat) : Value × Nat :=
  let ft := unwrapOptional fieldType
  let name := pyNormalize fieldName
  match nameMatch name ft with
  | some c => applyAutoCall c r
  | Option.none => typeFallback ft r

example : autoResolve "first_name" (.prim .str) 0 = (.fake "first_name" 0, 1) := rfl
example : autoResolve "city" (.optional (.prim .str)) 3 = (.fake "city" 3, 4) := rfl
example : autoResolve "something" (.other "object") 0 = (.none, 0) := rfl

/-! ## Sequence descriptors -/

/-- The output shape of `SequenceDescriptor.__init__`'s `format` argument:
`plain` (no format: return the counter itself), a format string applied as
`format.format(n)`, or a callable applied as `func(model_proxy, n)`. -/
inductive SeqFmt where
  | plain
  | fmtStr (f : String)
  | func (f : Dict → Int → Value)

/-- Produce `SequenceDescriptor.resolve`'s return value for counter value
`n` (descriptors.py lines 108-114). -/
def fmtApply : SeqFmt → Dict → Int → Value
  | .plain, _, n => .int n
  | .fmtStr f, _, n => .formatted f n
  | .func f, proxy, n => f proxy n

/-- `SequenceDescriptor` instance state (descriptors.py lines 84-114):
`start` is `_start` (immutable after construction), `counter` is the
mutable `_counter`, `fmt` is the `_func`/`_format` pair. -/
structure SequenceDescriptor where
  start : Int
  counter : Int
  fmt : SeqFmt

/-- `SequenceDescriptor.__init__` with start `s`: `_counter = _start = s`
(source default is `start=1`). -/
def mkSequenceDescriptor (fmt : SeqFmt) (s : Int) : SequenceDescriptor :=
  ⟨s, s, fmt⟩

/-- `SequenceDescriptor.resolve`: read the counter, increment it, and
return the (possibly formatted) read value with the updated instance. -/
def SequenceDescriptor.resolve (d : SequenceDescriptor) (proxy : Dict) :
    Value × SequenceDescriptor :=
  (fmtApply d.fmt proxy d.counter, ⟨d.start, d.counter + 1, d.fmt⟩)

/-- State of `d` after `n` consecutive `resolve` calls. -/
def SequenceDescriptor.afterResolves (d : SequenceDescriptor) (proxy : Dict) :
    Nat → SequenceDescriptor
  | 0 => d
  | n + 1 => ((d.afterResolves proxy n).resolve proxy).2

/-- Object-identity model for sequence counters: the mutable `_counter`
fields of all live `SequenceDescriptor` instances, indexed by allocation
order.  Constructing `SequenceDescriptor(start=s)` allocates a fresh slot
holding `s`; no two constructions return the same slot. -/
def mkSequenceSlot (seqs : List Int) (s : Int) : Nat × List Int :=
  (seqs.length, seqs ++ [s])

/-! ## Resolution state and descriptors -/

/-- The mutable state threaded through a resolution: the sequence-counter
store, the entropy position, and `log` — ghost instrumentation listing, in
order, the field names on which the resolution algorithm invoked
`descriptor.resolve` (it influences nothing else). -/
structure RState where
  seqs : List Int
  rng : Nat
  log : List String
  deriving Repr, DecidableEq

/-- The descriptor variants of descriptors.py (the source class of each
constructor is named after it).  `lazyDescriptor` holds the deferred
computation as a function of the partial record; `callDescriptor` holds
`func(*args, **kwargs)` as a function of the entropy position (all the
Generator Facade wrappers draw exactly once); `sequenceDescriptor` holds
the allocation slot of its mutable counter plus its format;
`fakeDescriptor` holds the faker method name. `SubFactoryDescriptor` /
`SubListFactoryDescriptor` are outside this embedding. -/
inductive Descriptor where
  | staticValue (v : Value)
  | lazyDescriptor (f : Dict → Except String Value)
  | callDescriptor (f : Nat → Value × Nat)
  | sequenceDescriptor (slot : Nat) (fmt : SeqFmt)
  | fakeDescriptor (method : String)
  | ignoreDescriptor
  | autoDescriptor (fieldName : String) (fieldType : PyType)

/-- `Descriptor.resolve(faker, model_proxy)` for each variant, with state
threaded explicitly.  `ignoreDescriptor` raises
`IgnoreDescriptor should never be resolved.` (descriptors.py line 162). -/
def Descriptor.resolve (d : Descriptor) (proxy : Dict) (st : RState) :
    Except String (Value × RState) :=
  match d with
  | .staticValue v => .ok (v, st)
  | .lazyDescriptor f =>
      match f proxy with
      | .ok v => .ok (v, st)
      | .error e => .error e
  | .callDescriptor f =>
      .ok ((f st.rng).1, ⟨st.seqs, (f st.rng).2, st.log⟩)
  | .sequenceDescriptor slot fmt =>
      match st.seqs.get? slot with
      | some c => .ok (fmtApply fmt proxy c, ⟨st.seqs.set slot (c + 1), st.rng, st.log⟩)
      | Option.none => .error "sequence descriptor refers to no allocated counter"
  | .fakeDescriptor m => .ok (.fake m st.rng, ⟨st.seqs, st.rng + 1, st.log⟩)
  | .ignoreDescriptor => .error "IgnoreDescriptor should never be resolved."
  | .autoDescriptor n t =>
      .ok ((autoResolve n t st.rng).1, ⟨st.seqs, (autoResolve n t st.rng).2, st.log⟩)

/-- A factory's merged `_declarations` mapping, in insertion order. -/
abbrev Declarations := List (String × Descriptor)

/-- Result of the first loop of `Factory._resolve`. -/
structure EagerOut where
  resolved : Dict
  ignored : List String
  lazyFields : List (String × (Dict → Except String Value))
  st : RState

/-- `isinstance(descriptor, descriptors.IgnoreDescriptor)`. -/
def isIgnore : Descriptor → Bool
  | .ignoreDescriptor => true
  | _ => false

/-- `isinstance(descriptor, descriptors.LazyDescriptor)`, returning the
deferred computation on success. -/
def asLazy : Descriptor → Option (Dict → Except String Value)
  | .lazyDescriptor f => some f
  | _ => Option.none

/-- First loop of `Factory._resolve` (factories.py lines 169-182): walk the
declarations in order; skip fields present in `overrides` (before any
other test); record `IgnoreDescriptor` fields in `ignored`; defer
`LazyDescriptor` fields to `lazyFields`; resolve everything else against a
proxy over the fields resolved so far, logging the field name. -/
def resolveEager (ovr : Dict) :
    Declarations → Dict → List String →
    List (String × (Dict → Except String Value)) → RState →
    Except String EagerOut
  | [], resolved, ignored, lazies, st => .ok ⟨resolved, ignored, lazies, st⟩
  | (name, d) :: rest, resolved, ignored, lazies, st =>
      if (dictGet ovr name).isSome then
        resolveEager ovr rest resolved ignored lazies st
      else if isIgnore d then
        resolveEager ovr rest resolved (ignored ++ [name]) lazies st
      else
        match asLazy d with
        | some f =>
            resolveEager ovr rest resolved ignored (lazies ++ [(name, f)]) st
        | Option.none =>
            match d.resolve resolved st with
            | .error e => .error e
            | .ok (v, st') =>
                resolveEager ovr rest (dictSet resolved name v) ignored lazies
                  ⟨st'.seqs, st'.rng, st'.log ++ [name]⟩

/-- Second loop of `Factory._resolve` (factories.py lines 184-188): write
every override into the result, skipping names recorded in `ignored`. -/
def applyOverrides (ignored : List String) : Dict → Dict → Dict
  | [], resolved => resolved
  | (k, v) :: rest, resolved =>
      if k ∈ ignored then applyOverrides ignored rest resolved
      else applyOverrides ignored rest (dictSet resolved k v)

/-- Third loop of `Factory._resolve` (factories.py lines 190-192): resolve
each deferred field, in declaration order, against a proxy over everything
resolved so far, unless the field name is in `overrides`. -/
def resolveDeferred (ovr : Dict) :
    List (String × (Dict → Except String Value)) → Dict → RState →
    Except String (Dict × RState)
  | [], resolved, st => .ok (resolved, st)
  | (name, f) :: rest, resolved, st =>
      if (dictGet ovr name).isSome then resolveDeferred ovr rest resolved st
      else
        match f resolved with
        | .error e => .error e
        | .ok v =>
            resolveDeferred ovr rest (dictSet resolved name v)
              ⟨st.seqs, st.rng, st.log ++ [name]⟩

/-- `Factory._resolve(overrides)` (factories.py lines 162-194): the three
loops in order, over an initially empty result dict. -/
def factoryResolve (decls : Declarations) (ovr : Dict) (st : RState) :
    Except String (Dict × RState) :=
  match resolveEager ovr decls [] [] [] st with
  | .error e => .error e
  | .ok out =>
      resolveDeferred ovr out.lazyFields (applyOverrides out.ignored ovr out.resolved) out.st

/-- `Factory.build(**overrides)` (factories.py lines 207-220) observed at
the resolved-attributes map: with the default `dict` target shape and the
`init` strategy, `build` returns `dict(**attrs)`, i.e. exactly the map
`_resolve(overrides=overrides)` produced. -/
def factoryBuild (decls : Declarations) (ovr : Dict) (st : RState) :
    Except String (Dict × RState) :=
  factoryResolve decls ovr st

/-- `Factory.to_dict(overrides)` (factories.py lines 196-200): resolve with
NO overrides, then `attrs.update(overrides or ...)`. -/
def factoryToDict (decls : Declarations) (ovr : Dict) (st : RState) :
    Except String (Dict × RState) :=
  match factoryResolve decls [] st with
  | .error e => .error e
  | .ok (attrs, st') => .ok (pyUpdate attrs ovr, st')

mutual

/-- `_jsonify` (factories.py lines 227-244): primitives unchanged, dicts and
lists mapped recursively; the scalar leaf conversions (date → ISO string,
UUID → string, Decimal → float, Enum → value) concern only symbolic draw
values here and are modelled as the identity on them, which no verified
claim distinguishes. -/
def jsonify : Value → Value
  | .int n => .int n
  | .str s => .str s
  | .bool b => .bool b
  | .none => .none
  | .list xs => .list (jsonifyList xs)
  | .dict xs => .dict (jsonifyDict xs)
  | v => v

/-- `_jsonify` on the elements of a list. -/
def jsonifyList : List Value → List Value
  | [] => []
  | x :: xs => jsonify x :: jsonifyList xs

/-- `_jsonify` on the values of a dict. -/
def jsonifyDict : List (String × Value) → List (String × Value)
  | [] => []
  | (k, v) :: xs => (k, jsonify v) :: jsonifyDict xs

end

/-- `Factory.to_json_dict(overrides)` (factories.py lines 202-205):
`_jsonify(to_dict(overrides))`. -/
def factoryToJsonDict (decls : Declarations) (ovr : Dict) (st : RState) :
    Except String (Dict × RState) :=
  match factoryToDict decls ovr st with
  | .error e => .error e
  | .ok (attrs, st') => .ok (jsonifyDict attrs, st')

/-! ## Generator Facade (`_Gen`, descriptors.py lines 165-218)

Each constructor takes the entropy position `r` at construction time and
returns the built descriptor together with the entropy position after
construction, so that construction-time draws are observable.  Python
`float` parameters are modelled by `Rat`. -/

/-- `_Gen.int(min, max)`: wraps `random.randint`; no construction effect. -/
def genInt (min max : Int) (r : Nat) : Descriptor × Nat :=
  (.callDescriptor (fun pos => (.randint min max pos, pos + 1)), r)

/-- `_Gen.float(min, max)`: wraps `random.uniform`; no construction effect. -/
def genFloat (min max : Rat) (r : Nat) : Descriptor × Nat :=
  (.callDescriptor (fun pos => (.uniform min max pos, pos + 1)), r)

/-- `_Gen.decimal(min, max, places)` (descriptors.py lines 166-174): draws
`random.uniform(min, max)` immediately at construction and returns a
descriptor wrapping `value.quantize` — which performs no further draw, so
every resolution yields the same quantized value. -/
def genDecimal (min max : Rat) (places : Int) (r : Nat) : Descriptor × Nat :=
  let value := Value.uniform min max r
  (.callDescriptor (fun pos => (.quantized value places, pos)), r + 1)

/-- `_Gen.normal(mean, stdev)`: rejects `stdev < 0` at construction, else
wraps `random.gauss`. -/
def genNormal (mean stdev : Rat) (r : Nat) : Except String (Descriptor × Nat) :=
  if stdev < 0 then .error "stdev must be >= 0."
  else .ok (.callDescriptor (fun pos => (.gauss mean stdev pos, pos + 1)), r)

/-- `_Gen.sample(sequence, k)`: wraps `random.sample`; no construction
effect. -/
def genSample (sequence : List Value) (k : Int) (r : Nat) : Descriptor × Nat :=
  (.callDescriptor (fun pos => (.randSample sequence k pos, pos + 1)), r)

/-- `_Gen.choices(sequence, k, weights)`: wraps `random.choices`; no
construction effect (the weights only parameterize the draw). -/
def genChoices (sequence : List Value) (k : Int) (r : Nat) : Descriptor × Nat :=
  (.callDescriptor (fun pos => (.randChoices sequence k pos, pos + 1)), r)

/-- `_Gen.uuid4()`: wraps `uuid.uuid4`; no construction effect. -/
def genUuid4 (r : Nat) : Descriptor × Nat :=
  (.callDescriptor (fun pos => (.uuid pos, pos + 1)), r)

/-- `string.ascii_letters + string.digits`, the default alphabet of
`_Gen.string`. -/
def defaultAlphabet : String :=
  "abcdefghijklmnopqrstuvwxyzABCDEFGHIJKLMNOPQRSTUVWXYZ0123456789"

/-- `_Gen.string(length, alphabet)` (descriptors.py lines 196-201): rejects
`length < 0`, and an empty alphabet when `length > 0`, at construction;
else wraps a draw of `length` characters from `alphabet`. -/
def genString (length : Int) (alphabet : String) (r : Nat) :
    Except String (Descriptor × Nat) :=
  if length < 0 then .error "length must be >= 0."
  else if alphabet = "" ∧ length > 0 then
    .error "alphabet cannot be empty when length > 0."
  else .ok (.callDescriptor (fun pos => (.randString alphabet length pos, pos + 1)), r)

/-- `_Gen.bool()`: wraps `random.choice([True, False])`; no construction
effect. -/
def genBool (r : Nat) : Descriptor × Nat :=
  (.callDescriptor (fun pos => (.randChoice [.bool true, .bool false] pos, pos + 1)), r)

/-- `_Gen.bytes(n)` (descriptors.py lines 206-209): rejects `n < 0` at
construction, else wraps `random.randbytes(n)`. -/
def genBytes (n : Int) (r : Nat) : Except String (Descriptor × Nat) :=
  if n < 0 then .error "n must be >= 0."
  else .ok (.callDescriptor (fun pos => (.randBytes n pos, pos + 1)), r)

/-- `_Gen.choice(sequence)`: wraps `random.choice`; no construction effect. -/
def genChoice (sequence : List Value) (r : Nat) : Descriptor × Nat :=
  (.callDescriptor (fun pos => (.randChoice sequence pos, pos + 1)), r)

/-! ## Declaration collection and merge (`FactoryMeta`, factories.py) -/

/-- A value in a factory class body: an explicit descriptor, a trait, a
`classmethod` / `property` / `staticmethod`, or a plain value. -/
inductive ClassAttr where
  | descr (d : Descriptor)
  | traitAttr
  | methodLike
  | plain (v : Value)

/-- The names `_collect_definitions` / `iter_items` skip: dunder-prefixed
names (`attr_name.startswith("__")`, decided on the character list) and the
bookkeeping keys `_declarations` / `_traits`. -/
def skipName (n : String) : Bool :=
  (match n.data with
   | '_' :: '_' :: _ => true
   | _ => false) || n = "_declarations" || n = "_traits"

/-- `_collect_definitions` (factories.py lines 37-62) restricted to the
declarations map: skip special names and method-like values, keep
descriptors, route traits to the (separate) traits map, and wrap any other
value as `StaticValue`. -/
def collectDefinitions : List (String × ClassAttr) → Declarations → Declarations
  | [], acc => acc
  | (n, a) :: rest, acc =>
      if skipName n then collectDefinitions rest acc
      else
        match a with
        | .methodLike => collectDefinitions rest acc
        | .traitAttr => collectDefinitions rest acc
        | .descr d => collectDefinitions rest (dictSet acc n d)
        | .plain v => collectDefinitions rest (dictSet acc n (.staticValue v))

/-- `_collect_definitions_from_dataclass` (factories.py lines 65-76): for
each type hint of the target shape (skipping the `iter_items` names), if
the field has no manual descriptor, synthesize `AutoDescriptor(name, type)`. -/
def collectFromHints (manual : List String) :
    List (String × PyType) → Declarations → Declarations
  | [], acc => acc
  | (n, t) :: rest, acc =>
      if skipName n then collectFromHints manual rest acc
      else if n ∈ manual then collectFromHints manual rest acc
      else collectFromHints manual rest (dictSet acc n (.autoDescriptor n t))

/-- The explicit declarations `FactoryMeta.__new__` accumulates before
auto-inference (factories.py lines 103-113): bases in reverse order, then
the class body, merged with dict-update semantics. -/
def explicitDeclarations (bases : List (List (String × ClassAttr)))
    (attrs : List (String × ClassAttr)) : Declarations :=
  pyUpdate
    (bases.reverse.foldl (fun acc b => pyUpdate acc (collectDefinitions b [])) [])
    (collectDefinitions attrs [])

/-- `FactoryMeta.__new__` declaration merge (factories.py lines 103-124):
explicit declarations first; then, when a target shape with type hints is
present, `declarations.update(extractor(model_class, set(declarations)))`
where the extractor only synthesizes `AutoDescriptor`s for hint names with
no manual declaration.  `hints = none` models the `dict` default target
(no extractor runs). -/
def mergeDeclarations (bases : List (List (String × ClassAttr)))
    (attrs : List (String × ClassAttr))
    (hints : Option (List (String × PyType))) : Declarations :=
  let declarations := explicitDeclarations bases attrs
  match hints with
  | Option.none => declarations
  | some hs => pyUpdate declarations (collectFromHints (declarations.map Prod.fst) hs [])

/-! ## Basic dictionary lemmas -/

theorem dictGet_dictSet_self {α : Type} (d : List (String × α)) (k : String) (v : α) :
    dictGet (dictSet d k v) k = some v := by
  induction d with
  | nil => simp [dictSet, dictGet]
  | cons p rest ih =>
      obtain ⟨k0, v0⟩ := p
      by_cases h : k0 = k
      · subst h
        simp [dictSet, dictGet]
      · simp [dictSet, dictGet, h, ih]

theorem dictGet_dictSet_ne {α : Type} (d : List (String × α)) (k k' : String) (v : α)
    (h : k' ≠ k) : dictGet (dictSet d k v) k' = dictGet d k' := by
  have hkk : ¬k = k' := fun hh => h hh.symm
  induction d with
  | nil => simp [dictSet, dictGet, hkk]
  | cons p rest ih =>
      obtain ⟨k0, v0⟩ := p
      by_cases h0 : k0 = k
      · subst h0
        simp [dictSet, dictGet, hkk]
      · simp [dictSet, dictGet, h0, ih]

theorem dictGet_eq_none_of_not_mem {α : Type} (d : List (String × α)) (k : String)
    (h : k ∉ d.map Prod.fst) : dictGet d k = Option.none := by
  induction d with
  | nil => rfl
  | cons p rest ih =>
      obtain ⟨k0, v0⟩ := p
      simp only [List.map_cons, List.mem_cons] at h
      push_neg at h
      have h0 : ¬k0 = k := fun hh => h.1 hh.symm
      simp [dictGet, h0, ih h.2]

theorem mem_keys_of_dictGet {α : Type} (d : List (String × α)) (k : String) (v : α)
    (h : dictGet d k = some v) : k ∈ d.map Prod.fst := by
  induction d with
  | nil => simp [dictGet] at h
  | cons p rest ih =>
      obtain ⟨k0, v0⟩ := p
      by_cases hk : k0 = k
      · subst hk
        simp
      · simp only [dictGet, if_neg hk] at h
        simp [ih h]

theorem pyUpdate_nil {α : Type} (d : List (String × α)) : pyUpdate d [] = d := rfl

theorem dictGet_pyUpdate_of_not_mem {α : Type} (d e : List (String × α)) (k : String)
    (h : k ∉ e.map Prod.fst) : dictGet (pyUpdate d e) k = dictGet d k := by
  induction e generalizing d with
  | nil => rfl
  | cons p rest ih =>
      obtain ⟨k0, v0⟩ := p
      simp only [List.map_cons, List.mem_cons] at h
      push_neg at h
      simp only [pyUpdate]
      rw [ih _ h.2, dictGet_dictSet_ne _ _ _ _ h.1]

theorem keys_dictSet {α : Type} (d : List (String × α)) (k k' : String) (v : α) :
    k' ∈ (dictSet d k v).map Prod.fst ↔ k' = k ∨ k' ∈ d.map Prod.fst := by
  induction d with
  | nil => simp [dictSet]
  | cons p rest ih =>
      obtain ⟨k0, v0⟩ := p
      by_cases h0 : k0 = k
      · subst h0
        simp [dictSet]
      · simp [dictSet, h0, ih]
        tauto

theorem nodupKeys_dictSet {α : Type} (d : List (String × α)) (k : String) (v : α)
    (h : (d.map Prod.fst).Nodup) : ((dictSet d k v).map Prod.fst).Nodup := by
  induction d with
  | nil => simp [dictSet]
  | cons p rest ih =>
      obtain ⟨k0, v0⟩ := p
      simp only [List.map_cons, List.nodup_cons] at h
      by_cases h0 : k0 = k
      · subst h0
        simpa [dictSet, List.nodup_cons] using h
      · rw [show dictSet ((k0, v0) :: rest) k v = (k0, v0) :: dictSet rest k v
            from by simp [dictSet, h0]]
        simp only [List.map_cons, List.nodup_cons]
        refine ⟨?_, ih h.2⟩
        intro hmem
        rcases (keys_dictSet rest k k0 v).mp hmem with h1 | h1
        · exact h0 h1
        · exact h.1 h1

theorem dictGet_pyUpdate_of_nodup_some {α : Type} (d e : List (String × α)) (k : String)
    (v : α) (hnd : (e.map Prod.fst).Nodup) (h : dictGet e k = some v) :
    dictGet (pyUpdate d e) k = some v := by
  induction e generalizing d with
  | nil => simp [dictGet] at h
  | cons p rest ih =>
      obtain ⟨k0, v0⟩ := p
      simp only [List.map_cons, List.nodup_cons] at hnd
      by_cases hk : k0 = k
      · subst hk
        simp only [dictGet, if_pos rfl] at h
        cases h
        simp only [pyUpdate]
        rw [dictGet_pyUpdate_of_not_mem _ _ _ hnd.1, dictGet_dictSet_self]
      · simp only [dictGet, if_neg hk] at h
        simp only [pyUpdate]
        exact ih _ hnd.2 h

/-! ## Claim theorems -/

/-- C1: the claim states that `build`'s resolved output never contains a key
whose declared descriptor is the exclusion sentinel, even when that key is
overridden.  The code violates this: in `Factory._resolve` the first loop
skips overridden fields before the `IgnoreDescriptor` test, so an
overridden excluded field is never recorded in `ignored`, and the second
loop writes its override into the output.  Evaluated here on the model
`x = Ignore, y = Constant 1` with override `x = 5`: the output contains
`x = 5`. -/
theorem excluded_override_written_to_output :
    factoryBuild [("x", .ignoreDescriptor), ("y", .staticValue (.int 1))]
      [("x", .int 5)] ⟨[], 0, []⟩ =
      .ok ([("y", .int 1), ("x", .int 5)], ⟨[], 0, ["y"]⟩) ∧
    dictGet [("y", Value.int 1), ("x", Value.int 5)] "x" = some (.int 5) := by
  exact ⟨rfl, rfl⟩

/-- C2: the claim describes the three-phase resolution order, with phase 2
applying only the "overrides not excluded".  The phase structure and order
match the code, but phase 2 in fact applies every override: the `ignored`
set can never intersect the overrides (overridden fields are skipped
before the exclusion test), so the guard in the second loop is dead and an
override for an excluded field is applied.  Evaluated on the model
`a = Ignore, b = Constant 7` with override `a = "boom"`: phase 1 resolves
`b`, phase 2 writes the override for the excluded field `a`. -/
theorem override_of_excluded_field_applied :
    factoryResolve [("a", .ignoreDescriptor), ("b", .staticValue (.int 7))]
      [("a", .str "boom")] ⟨[], 0, []⟩ =
      .ok ([("b", .int 7), ("a", .str "boom")], ⟨[], 0, ["b"]⟩) := by
  exact rfl

/-- C5: the claim states that constructing any Generator Facade descriptor
performs no draw from the random source.  `_Gen.decimal` violates this: it
calls `random.uniform(min, max)` at construction (advancing the entropy
position from 0 to 1 here), and the returned descriptor merely quantizes
that captured draw, so resolving it performs no draw at all and yields the
same value at every entropy position (5 and 9 below).  `_Gen.int`, by
contrast, has no construction effect. -/
theorem gen_decimal_draws_at_construction :
    (genDecimal 1 2 2 0).2 = 1 ∧
    (genInt 1 2 0).2 = 0 ∧
    Descriptor.resolve (genDecimal 1 2 2 0).1 [] ⟨[], 5, []⟩ =
      .ok (.quantized (.uniform 1 2 0) 2, ⟨[], 5, []⟩) ∧
    Descriptor.resolve (genDecimal 1 2 2 0).1 [] ⟨[], 9, []⟩ =
      .ok (.quantized (.uniform 1 2 0) 2, ⟨[], 9, []⟩) := by
  exact ⟨rfl, rfl, rfl, rfl⟩

/-- C7: the claim states that a field with a list-shaped declared type
(after removing one level of optional wrapper) falls back to an empty
list.  The code violates this for a non-optional subscripted list:
`_unwrap_optional` fires on any one-argument generic alias, so it maps
`list[int]` to `int` and the field `scores : list[int]` (no name-table
match) resolves to a random integer, not `[]`.  Only an optional-wrapped
`list[int] | None` reaches the empty-list branch. -/
theorem auto_list_type_misresolved :
    nameMatch (pyNormalize "scores") (unwrapOptional (.listOf (.prim .int))) =
      Option.none ∧
    unwrapOptional (.listOf (.prim .int)) = .prim .int ∧
    autoResolve "scores" (.listOf (.prim .int)) 0 = (.fake "random_int" 0, 1) ∧
    autoResolve "scores" (.optional (.listOf (.prim .int))) 0 = (.list [], 0) ∧
    autoResolve "scores" (.bareList) 0 = (.none, 0) := by
  exact ⟨rfl, rfl, rfl, rfl, rfl⟩

/-- C8 counterexample: the claim states that looking up any name not among
the fields resolved so far raises the "not yet resolved or does not
exist" condition.  For names that are attributes of the backing dict
(here `"items"`, on an empty partial record) the `getattr` fallback of
`ModelProxy.__getattr__` succeeds instead, returning the bound attribute. -/
theorem proxy_dict_attr_shadow :
    proxyGetattr [] "items" = .ok (.boundMethod "items") ∧
    proxyGetattr [] "items" ≠
      .error "Field \"items\" not yet resolved or does not exist." := by
  refine ⟨rfl, ?_⟩
  intro h
  rw [show proxyGetattr [] "items" = .ok (.boundMethod "items") from rfl] at h
  simp at h

/-- C8 amended: looking up a field that is neither resolved so far nor an
attribute name of the backing dict raises the "not yet resolved or does
not exist" condition — the same condition whether the field is merely not
yet resolved or does not exist at all. -/
theorem proxy_lookup_raises (data : Dict) (name : String)
    (h1 : dictGet data name = Option.none) (h2 : name ∉ dictAttrNames) :
    proxyGetattr data name =
      .error ("Field \"" ++ name ++ "\" not yet resolved or does not exist.") := by
  unfold proxyGetattr
  rw [h1]
  simp [h2]

/-- Witness for `proxy_lookup_raises` at the partial record `a = 1` and the
unresolved name `b`. -/
theorem proxy_lookup_raises_witness :
    dictGet ([("a", Value.int 1)] : Dict) "b" = Option.none ∧
    "b" ∉ dictAttrNames ∧
    proxyGetattr [("a", Value.int 1)] "b" =
      .error ("Field \"" ++ "b" ++ "\" not yet resolved or does not exist.") :=
  ⟨rfl, by decide, proxy_lookup_raises [("a", Value.int 1)] "b" rfl (by decide)⟩

/-- C9: the Generator Facade validates arguments at construction:
`string(length, alphabet)` fails iff `length < 0` or the alphabet is empty
with `length > 0`; `bytes(n)` fails iff `n < 0`; `normal(mean, stdev)`
fails iff `stdev < 0`; on all valid arguments construction succeeds. -/
theorem gen_argument_validation :
    (∀ (length : Int) (alphabet : String) (r : Nat),
      (genString length alphabet r).isOk ↔
        ¬(length < 0 ∨ (alphabet = "" ∧ 0 < length))) ∧
    (∀ (n : Int) (r : Nat), (genBytes n r).isOk ↔ ¬n < 0) ∧
    (∀ (mean stdev : Rat) (r : Nat), (genNormal mean stdev r).isOk ↔ ¬stdev < 0) := by
  refine ⟨fun length alphabet r => ?_, fun n r => ?_, fun mean stdev r => ?_⟩
  · unfold genString
    by_cases h1 : length < 0
    · simp [h1, Except.isOk, Except.toBool]
    · by_cases h2 : alphabet = "" ∧ length > 0
      · simp [h1, h2, Except.isOk, Except.toBool]
      · simp [h1, h2, Except.isOk, Except.toBool]
  · unfold genBytes
    by_cases h : n < 0
    · simp [h, Except.isOk, Except.toBool]
    · simp [h, Except.isOk, Except.toBool]
  · unfold genNormal
    by_cases h : stdev < 0
    · simp [h, Except.isOk, Except.toBool]
    · simp [h, Except.isOk, Except.toBool]

/-- C4 counterexample: the claim states that `to_dict` / `to_json_dict` are
views over the same resolution as `build` with the same overrides.  On the
model `x = Constant 1, y = Deferred(proxy.x)` with override `x = 5`,
`build` resolves the deferred field against the override (`y = 5`) while
`to_dict` resolves everything with no overrides (`y = 1`, and `x`'s
descriptor is resolved too, as the log shows) and only then overlays the
override, so the two outputs differ. -/
theorem toDict_differs_from_build :
    factoryToDict
        [("x", .staticValue (.int 1)),
         ("y", .lazyDescriptor (fun d => proxyGetattr d "x"))]
        [("x", .int 5)] ⟨[], 0, []⟩ =
      .ok ([("x", .int 5), ("y", .int 1)], ⟨[], 0, ["x", "y"]⟩) ∧
    factoryBuild
        [("x", .staticValue (.int 1)),
         ("y", .lazyDescriptor (fun d => proxyGetattr d "x"))]
        [("x", .int 5)] ⟨[], 0, []⟩ =
      .ok ([("x", .int 5), ("y", .int 5)], ⟨[], 0, ["y"]⟩) ∧
    factoryToDict
        [("x", .staticValue (.int 1)),
         ("y", .lazyDescriptor (fun d => proxyGetattr d "x"))]
        [("x", .int 5)] ⟨[], 0, []⟩ ≠
      factoryBuild
        [("x", .staticValue (.int 1)),
         ("y", .lazyDescriptor (fun d => proxyGetattr d "x"))]
        [("x", .int 5)] ⟨[], 0, []⟩ := by
  refine ⟨rfl, rfl, ?_⟩
  intro h
  rw [show factoryToDict
        [("x", .staticValue (.int 1)),
         ("y", .lazyDescriptor (fun d => proxyGetattr d "x"))]
        [("x", .int 5)] ⟨[], 0, []⟩ =
      .ok ([("x", .int 5), ("y", .int 1)], ⟨[], 0, ["x", "y"]⟩) from rfl,
    show factoryBuild
        [("x", .staticValue (.int 1)),
         ("y", .lazyDescriptor (fun d => proxyGetattr d "x"))]
        [("x", .int 5)] ⟨[], 0, []⟩ =
      .ok ([("x", .int 5), ("y", .int 5)], ⟨[], 0, ["y"]⟩) from rfl] at h
  simp at h

/-- C4 amended: `to_dict(overrides)` runs the resolution algorithm with NO
overrides and then overlays the caller's overrides onto the resulting map
(`to_json_dict` additionally maps the scalar-serialization on the result);
with empty overrides `to_dict` coincides exactly with `build`'s resolved
map, but with non-empty overrides the resolutions differ (deferred fields
see declared values, and overridden declared descriptors are still
resolved). -/
theorem toDict_is_overlay_on_plain_resolution (decls : Declarations) (st : RState) :
    factoryToDict decls [] st = factoryBuild decls [] st ∧
    (∀ ovr, factoryToDict decls ovr st =
      match factoryBuild decls [] st with
      | .error e => .error e
      | .ok (m, s) => .ok (pyUpdate m ovr, s)) ∧
    (∀ ovr, factoryToJsonDict decls ovr st =
      match factoryToDict decls ovr st with
      | .error e => .error e
      | .ok (m, s) => .ok (jsonifyDict m, s)) := by
  refine ⟨?_, fun ovr => ?_, fun ovr => ?_⟩
  · show (match factoryResolve decls [] st with
      | .error e => .error e
      | .ok (attrs, st') => .ok (pyUpdate attrs [], st')) = factoryResolve decls [] st
    cases factoryResolve decls [] st with
    | error e => rfl
    | ok p =>
        obtain ⟨m, s⟩ := p
        show Except.ok (pyUpdate m [], s) = Except.ok (m, s)
        rw [pyUpdate_nil]
  · rfl
  · rfl

/-- `resolve` never changes a sequence descriptor's `start` or format. -/
theorem seq_afterResolves_invariants (d : SequenceDescriptor) (proxy : Dict) (k : Nat) :
    (d.afterResolves proxy k).start = d.start ∧
    (d.afterResolves proxy k).fmt = d.fmt := by
  induction k with
  | zero => exact ⟨rfl, rfl⟩
  | succ k ih =>
      simp only [SequenceDescriptor.afterResolves, SequenceDescriptor.resolve]
      exact ih

/-- After `k` resolutions a sequence descriptor constructed with start `s`
holds counter `s + k`. -/
theorem seq_afterResolves_counter (fmt : SeqFmt) (s : Int) (proxy : Dict) (k : Nat) :
    ((mkSequenceDescriptor fmt s).afterResolves proxy k).counter = s + (k : Int) := by
  induction k with
  | zero => simp [SequenceDescriptor.afterResolves, mkSequenceDescriptor]
  | succ k ih =>
      simp only [SequenceDescriptor.afterResolves, SequenceDescriptor.resolve, ih]
      push_cast
      ring

/-- List lookup at the length of a left factor of an append. -/
theorem get_append_cons {α : Type} (l : List α) (x : α) (t : List α) :
    (l ++ x :: t).get? l.length = some x := by
  induction l with
  | nil => rfl
  | cons a l ih => simpa using ih

/-- C3: sequence counters.  (1) After `k` resolutions the counter of a
descriptor constructed with start `s` is `s + k`, so the `(k+1)`-th
resolution (1-indexed: the n-th yields `s + n - 1`) produces the
(formatted) value of `s + k`, and the counter is never reset — it only
ever advances.  (2) Two separately constructed descriptors occupy distinct
counter slots, resolving the first leaves the second's counter untouched,
and repeated `build` calls continue from the incremented counter (a
resolution threads the store through, starting where the previous one
stopped). -/
theorem sequence_counter_behavior :
    (∀ (fmt : SeqFmt) (s : Int) (proxy : Dict) (k : Nat),
      ((mkSequenceDescriptor fmt s).afterResolves proxy k).counter = s + (k : Int)) ∧
    (∀ (fmt : SeqFmt) (s : Int) (proxy : Dict) (k : Nat),
      (((mkSequenceDescriptor fmt s).afterResolves proxy k).resolve proxy).1 =
        fmtApply fmt proxy (s + (k : Int))) ∧
    (∀ (seqs : List Int) (a b : Int) (rng : Nat) (log : List String) (proxy : Dict),
      (mkSequenceSlot seqs a).1 ≠ (mkSequenceSlot (mkSequenceSlot seqs a).2 b).1 ∧
      Descriptor.resolve
          (.sequenceDescriptor (mkSequenceSlot seqs a).1 .plain) proxy
          ⟨(mkSequenceSlot (mkSequenceSlot seqs a).2 b).2, rng, log⟩ =
        .ok (.int a,
          ⟨((mkSequenceSlot (mkSequenceSlot seqs a).2 b).2).set
              (mkSequenceSlot seqs a).1 (a + 1), rng, log⟩) ∧
      (((mkSequenceSlot (mkSequenceSlot seqs a).2 b).2).set
          (mkSequenceSlot seqs a).1 (a + 1)).get?
          (mkSequenceSlot (mkSequenceSlot seqs a).2 b).1 = some b) ∧
    (∀ (c : Int) (rng : Nat) (log : List String),
      factoryResolve [("id", .sequenceDescriptor 0 .plain)] [] ⟨[c], rng, log⟩ =
        .ok ([("id", .int c)], ⟨[c + 1], rng, log ++ ["id"]⟩)) := by
  refine ⟨seq_afterResolves_counter, fun fmt s proxy k => ?_,
    fun seqs a b rng log proxy => ?_, fun c rng log => ?_⟩
  · have h1 := (seq_afterResolves_invariants (mkSequenceDescriptor fmt s) proxy k).2
    have h2 := seq_afterResolves_counter fmt s proxy k
    simp only [SequenceDescriptor.resolve, h1, h2]
    rfl
  · have hlen : ((seqs ++ [a]) ++ [b]).get? seqs.length = some a := by
      rw [List.append_assoc]
      exact get_append_cons seqs a [b]
    refine ⟨by simp [mkSequenceSlot], ?_, ?_⟩
    · simp only [mkSequenceSlot, Descriptor.resolve, hlen]
      rfl
    · rw [show (mkSequenceSlot (mkSequenceSlot seqs a).2 b).2 = (seqs ++ [a]) ++ [b]
          from rfl,
        show (mkSequenceSlot seqs a).1 = seqs.length from rfl,
        show (mkSequenceSlot (mkSequenceSlot seqs a).2 b).1 = (seqs ++ [a]).length
          from rfl]
      rw [List.get?_set_ne _ _ (by simp)]
      exact get_append_cons (seqs ++ [a]) b []
  · rfl

/-- `Descriptor.resolve` never touches the ghost log. -/
theorem descriptor_resolve_log (d : Descriptor) (proxy : Dict) (st : RState)
    (v : Value) (st' : RState) (h : d.resolve proxy st = .ok (v, st')) :
    st'.log = st.log := by
  cases d with
  | staticValue w =>
      simp only [Descriptor.resolve] at h
      cases h
      rfl
  | lazyDescriptor f =>
      simp only [Descriptor.resolve] at h
      cases hf : f proxy with
      | ok w => rw [hf] at h; cases h; rfl
      | error e => rw [hf] at h; exact Except.noConfusion h
  | callDescriptor f =>
      simp only [Descriptor.resolve] at h
      cases h
      rfl
  | sequenceDescriptor slot fmt =>
      simp only [Descriptor.resolve] at h
      cases hc : st.seqs.get? slot with
      | some c => rw [hc] at h; cases h; rfl
      | none => rw [hc] at h; exact Except.noConfusion h
  | fakeDescriptor m =>
      simp only [Descriptor.resolve] at h
      cases h
      rfl
  | ignoreDescriptor =>
      simp only [Descriptor.resolve] at h
      exact Except.noConfusion h
  | autoDescriptor n t =>
      simp only [Descriptor.resolve] at h
      cases h
      rfl

/-- `Descriptor.resolve` leaves the counter of any slot not owned by the
resolved descriptor unchanged. -/
theorem descriptor_resolve_seq_frame (d : Descriptor) (proxy : Dict) (st : RState)
    (v : Value) (st' : RState) (h : d.resolve proxy st = .ok (v, st'))
    (slot : Nat) (hd : ∀ fmt, d ≠ .sequenceDescriptor slot fmt) :
    st'.seqs.get? slot = st.seqs.get? slot := by
  cases d with
  | staticValue w =>
      simp only [Descriptor.resolve] at h
      cases h
      rfl
  | lazyDescriptor f =>
      simp only [Descriptor.resolve] at h
      cases hf : f proxy with
      | ok w => rw [hf] at h; cases h; rfl
      | error e => rw [hf] at h; exact Except.noConfusion h
  | callDescriptor f =>
      simp only [Descriptor.resolve] at h
      cases h
      rfl
  | sequenceDescriptor slot' fmt =>
      have hne : slot' ≠ slot := by
        intro he
        exact hd fmt (by rw [he])
      simp only [Descriptor.resolve] at h
      cases hc : st.seqs.get? slot' with
      | some c =>
          rw [hc] at h
          cases h
          exact List.get?_set_ne _ _ hne
      | none => rw [hc] at h; exact Except.noConfusion h
  | fakeDescriptor m =>
      simp only [Descriptor.resolve] at h
      cases h
      rfl
  | ignoreDescriptor =>
      simp only [Descriptor.resolve] at h
      exact Except.noConfusion h
  | autoDescriptor n t =>
      simp only [Descriptor.resolve] at h
      cases h
      rfl

/-- Any name the eager loop appends to the ghost log is a non-overridden
name (overridden fields are skipped before their descriptor is touched). -/
theorem resolveEager_log (ovr : Dict) (decls : Declarations) :
    ∀ (resolved : Dict) (ignored : List String)
      (lazies : List (String × (Dict → Except String Value))) (st : RState)
      (out : EagerOut),
      resolveEager ovr decls resolved ignored lazies st = .ok out →
      ∀ x, x ∈ out.st.log → x ∈ st.log ∨ dictGet ovr x = Option.none := by
  induction decls with
  | nil =>
      intro resolved ignored lazies st out h x hx
      rw [resolveEager] at h
      cases h
      exact Or.inl hx
  | cons p rest ih =>
      obtain ⟨name, d⟩ := p
      intro resolved ignored lazies st out h x hx
      rw [resolveEager] at h
      by_cases hov : (dictGet ovr name).isSome
      · rw [if_pos hov] at h
        exact ih _ _ _ _ _ h x hx
      · rw [if_neg hov] at h
        have hnone : dictGet ovr name = Option.none :=
          Option.not_isSome_iff_eq_none.mp hov
        by_cases hig : isIgnore d = true
        · rw [if_pos hig] at h
          exact ih _ _ _ _ _ h x hx
        · rw [if_neg hig] at h
          cases hlz : asLazy d with
          | some f =>
              rw [hlz] at h
              exact ih _ _ _ _ _ h x hx
          | none =>
              rw [hlz] at h
              cases hr : d.resolve resolved st with
              | error e => rw [hr] at h; exact Except.noConfusion h
              | ok q =>
                  obtain ⟨v, st1⟩ := q
                  rw [hr] at h
                  have hlog := descriptor_resolve_log _ _ _ _ _ hr
                  rcases ih _ _ _ _ _ h x hx with h1 | h1
                  · have h1' : x ∈ st1.log ++ [name] := h1
                    rw [hlog] at h1'
                    rcases List.mem_append.mp h1' with h2 | h2
                    · exact Or.inl h2
                    · have hxn : x = name := by simpa using h2
                      subst hxn
                      exact Or.inr hnone
                  · exact Or.inr h1

/-- If every declared field owning sequence slot `slot` is overridden, the
eager loop leaves that counter untouched. -/
theorem resolveEager_seq_frame (ovr : Dict) (decls : Declarations) :
    ∀ (resolved : Dict) (ignored : List String)
      (lazies : List (String × (Dict → Except String Value))) (st : RState)
      (out : EagerOut),
      resolveEager ovr decls resolved ignored lazies st = .ok out →
      ∀ slot : Nat,
        (∀ n fmt, (n, Descriptor.sequenceDescriptor slot fmt) ∈ decls →
          (dictGet ovr n).isSome) →
        out.st.seqs.get? slot = st.seqs.get? slot := by
  induction decls with
  | nil =>
      intro resolved ignored lazies st out h slot hslot
      rw [resolveEager] at h
      cases h
      rfl
  | cons p rest ih =>
      obtain ⟨name, d⟩ := p
      intro resolved ignored lazies st out h slot hslot
      have hslot' : ∀ n fmt, (n, Descriptor.sequenceDescriptor slot fmt) ∈ rest →
          (dictGet ovr n).isSome :=
        fun n fmt hm => hslot n fmt (List.mem_cons_of_mem _ hm)
      rw [resolveEager] at h
      by_cases hov : (dictGet ovr name).isSome
      · rw [if_pos hov] at h
        exact ih _ _ _ _ _ h slot hslot'
      · rw [if_neg hov] at h
        by_cases hig : isIgnore d = true
        · rw [if_pos hig] at h
          exact ih _ _ _ _ _ h slot hslot'
        · rw [if_neg hig] at h
          cases hlz : asLazy d with
          | some f =>
              rw [hlz] at h
              exact ih _ _ _ _ _ h slot hslot'
          | none =>
              rw [hlz] at h
              cases hr : d.resolve resolved st with
              | error e => rw [hr] at h; exact Except.noConfusion h
              | ok q =>
                  obtain ⟨v, st1⟩ := q
                  rw [hr] at h
                  have hd : ∀ fmt, d ≠ Descriptor.sequenceDescriptor slot fmt := by
                    intro fmt he
                    refine hov (hslot name fmt ?_)
                    rw [← he]
                    exact List.mem_cons_self _ _
                  have hframe := descriptor_resolve_seq_frame _ _ _ _ _ hr slot hd
                  have hrec := ih _ _ _ _ _ h slot hslot'
                  calc out.st.seqs.get? slot
                      = st1.seqs.get? slot := hrec
                    _ = st.seqs.get? slot := hframe

/-- The deferred loop never touches sequence counters or the entropy
position, and any name it logs is non-overridden. -/
theorem resolveDeferred_state (ovr : Dict)
    (ls : List (String × (Dict → Except String Value))) :
    ∀ (resolved : Dict) (st : RState) (m : Dict) (st' : RState),
      resolveDeferred ovr ls resolved st = .ok (m, st') →
      st'.seqs = st.seqs ∧ st'.rng = st.rng ∧
      ∀ x, x ∈ st'.log → x ∈ st.log ∨ dictGet ovr x = Option.none := by
  induction ls with
  | nil =>
      intro resolved st m st' h
      rw [resolveDeferred] at h
      cases h
      exact ⟨rfl, rfl, fun x hx => Or.inl hx⟩
  | cons p rest ih =>
      obtain ⟨name, f⟩ := p
      intro resolved st m st' h
      rw [resolveDeferred] at h
      by_cases hov : (dictGet ovr name).isSome
      · rw [if_pos hov] at h
        exact ih _ _ _ _ h
      · rw [if_neg hov] at h
        have hnone : dictGet ovr name = Option.none :=
          Option.not_isSome_iff_eq_none.mp hov
        cases hf : f resolved with
        | error e => rw [hf] at h; exact Except.noConfusion h
        | ok v =>
            rw [hf] at h
            obtain ⟨h1, h2, h3⟩ := ih _ _ _ _ h
            refine ⟨h1, h2, fun x hx => ?_⟩
            rcases h3 x hx with h4 | h4
            · have h4' : x ∈ st.log ++ [name] := h4
              rcases List.mem_append.mp h4' with h5 | h5
              · exact Or.inl h5
              · have hxn : x = name := by simpa using h5
                subst hxn
                exact Or.inr hnone
            · exact Or.inr h4

/-- C10: a field name present in the caller overrides is never resolved
during that build: its name is never added to the resolution log (so its
declared descriptor's `resolve` — an `Invoke` function call, a faker call,
a deferred computation — is never invoked), and when every declared field
owning a given sequence slot is overridden, that sequence counter does not
advance. -/
theorem overridden_descriptor_never_resolved (decls : Declarations) (ovr : Dict)
    (st : RState) (m : Dict) (st' : RState)
    (h : factoryResolve decls ovr st = .ok (m, st')) :
    (∀ name, (dictGet ovr name).isSome → name ∈ st'.log → name ∈ st.log) ∧
    (∀ slot : Nat,
      (∀ n fmt, (n, Descriptor.sequenceDescriptor slot fmt) ∈ decls →
        (dictGet ovr n).isSome) →
      st'.seqs.get? slot = st.seqs.get? slot) := by
  unfold factoryResolve at h
  cases he : resolveEager ovr decls [] [] [] st with
  | error e => rw [he] at h; exact Except.noConfusion h
  | ok out =>
      rw [he] at h
      obtain ⟨hseqs, hrng, hlog⟩ := resolveDeferred_state ovr out.lazyFields _ _ _ _ h
      constructor
      · intro name hov hmem
        rcases hlog name hmem with h1 | h1
        · rcases resolveEager_log ovr decls _ _ _ _ _ he name h1 with h2 | h2
          · exact h2
          · rw [h2] at hov
            simp at hov
        · rw [h1] at hov
          simp at hov
      · intro slot hslot
        rw [hseqs]
        exact resolveEager_seq_frame ovr decls _ _ _ _ _ he slot hslot

/-- Witness for `overridden_descriptor_never_resolved`: the model
`id = Sequence(slot 0), n = Constant 3` built with override `id = 99`
resolves to `{n: 3, id: 99}`, leaves the sequence counter at 10, and logs
only `n`. -/
theorem overridden_descriptor_never_resolved_witness :
    ("id" ∈ (RState.mk [10] 0 ["n"]).log → "id" ∈ (RState.mk [10] 0 []).log) ∧
    (RState.mk [10] 0 ["n"]).seqs.get? 0 = (RState.mk [10] 0 []).seqs.get? 0 := by
  have h := overridden_descriptor_never_resolved
    [("id", .sequenceDescriptor 0 .plain), ("n", .staticValue (.int 3))]
    [("id", .int 99)] ⟨[10], 0, []⟩ [("n", .int 3), ("id", .int 99)] ⟨[10], 0, ["n"]⟩
    rfl
  refine ⟨h.1 "id" rfl, h.2 0 ?_⟩
  intro n fmt hm
  rcases List.mem_cons.mp hm with h1 | h1
  · have hn : n = "id" := congrArg Prod.fst h1
    subst hn
    rfl
  · have h2 : (n, Descriptor.sequenceDescriptor 0 fmt) = ("n", .staticValue (.int 3)) := by
      simpa using h1
    exact absurd (congrArg Prod.snd h2) (by simp)

/-- The hint extractor never binds a name in the manual-declarations set. -/
theorem collectFromHints_manual (manual : List String) (hs : List (String × PyType)) :
    ∀ (acc : Declarations) (n : String), n ∈ manual →
      dictGet (collectFromHints manual hs acc) n = dictGet acc n := by
  induction hs with
  | nil => intro acc n _; rfl
  | cons p rest ih =>
      obtain ⟨n0, t0⟩ := p
      intro acc n hn
      rw [collectFromHints]
      by_cases hskip : skipName n0 = true
      · rw [if_pos hskip]
        exact ih acc n hn
      · rw [if_neg hskip]
        by_cases hman : n0 ∈ manual
        · rw [if_pos hman]
          exact ih acc n hn
        · rw [if_neg hman]
          rw [ih _ n hn]
          exact dictGet_dictSet_ne _ _ _ _ (fun he => hman (he ▸ hn))

/-- Every binding the hint extractor produces (beyond its accumulator) is an
`AutoDescriptor` for a hint name outside the manual set. -/
theorem collectFromHints_spec (manual : List String) (hs : List (String × PyType)) :
    ∀ (acc : Declarations) (n : String) (d : Descriptor),
      dictGet (collectFromHints manual hs acc) n = some d →
      dictGet acc n = some d ∨
      (∃ t, (n, t) ∈ hs ∧ d = .autoDescriptor n t ∧ n ∉ manual ∧ skipName n = false) := by
  induction hs with
  | nil => intro acc n d h; exact Or.inl h
  | cons p rest ih =>
      obtain ⟨n0, t0⟩ := p
      intro acc n d h
      rw [collectFromHints] at h
      by_cases hskip : skipName n0 = true
      · rw [if_pos hskip] at h
        rcases ih _ _ _ h with h1 | ⟨t, hmem, h2⟩
        · exact Or.inl h1
        · exact Or.inr ⟨t, List.mem_cons_of_mem _ hmem, h2⟩
      · rw [if_neg hskip] at h
        by_cases hman : n0 ∈ manual
        · rw [if_pos hman] at h
          rcases ih _ _ _ h with h1 | ⟨t, hmem, h2⟩
          · exact Or.inl h1
          · exact Or.inr ⟨t, List.mem_cons_of_mem _ hmem, h2⟩
        · rw [if_neg hman] at h
          rcases ih _ _ _ h with h1 | ⟨t, hmem, h2⟩
          · by_cases hn0 : n0 = n
            · subst hn0
              rw [dictGet_dictSet_self] at h1
              cases h1
              exact Or.inr ⟨t0, List.mem_cons_self _ _, rfl, hman,
                Bool.not_eq_true _ ▸ (by simpa using hskip)⟩
            · rw [dictGet_dictSet_ne _ _ _ _ (fun he => hn0 he.symm)] at h1
              exact Or.inl h1
          · exact Or.inr ⟨t, List.mem_cons_of_mem _ hmem, h2⟩

/-- The hint extractor preserves key uniqueness. -/
theorem collectFromHints_nodupKeys (manual : List String) (hs : List (String × PyType)) :
    ∀ acc : Declarations, ((acc.map Prod.fst).Nodup) →
      (((collectFromHints manual hs acc).map Prod.fst).Nodup) := by
  induction hs with
  | nil => intro acc hacc; exact hacc
  | cons p rest ih =>
      obtain ⟨n0, t0⟩ := p
      intro acc hacc
      rw [collectFromHints]
      by_cases hskip : skipName n0 = true
      · rw [if_pos hskip]
        exact ih acc hacc
      · rw [if_neg hskip]
        by_cases hman : n0 ∈ manual
        · rw [if_pos hman]
          exact ih acc hacc
        · rw [if_neg hman]
          exact ih _ (nodupKeys_dictSet _ _ _ hacc)

/-- A key present in a dict has a `some` lookup. -/
theorem dictGet_isSome_of_mem_keys {α : Type} (d : List (String × α)) (k : String)
    (h : k ∈ d.map Prod.fst) : (dictGet d k).isSome := by
  induction d with
  | nil => simp at h
  | cons p rest ih =>
      obtain ⟨k0, v0⟩ := p
      by_cases hk : k0 = k
      · subst hk
        simp [dictGet]
      · simp only [List.map_cons, List.mem_cons] at h
        rcases h with h1 | h1
        · exact absurd h1.symm hk
        · simpa [dictGet, hk] using ih h1

/-- C6: explicit field declarations always take precedence over
auto-inference.  In the merged declaration map, (1) every explicitly
declared name keeps its explicit descriptor — the extractor skips names in
the manual set, so the final update cannot override them; and (2) every
binding not explicitly declared that the merge adds is an `AutoDescriptor`
synthesized for a hint name of the target shape that lacks an explicit
declaration. -/
theorem explicit_declarations_take_precedence
    (bases : List (List (String × ClassAttr))) (attrs : List (String × ClassAttr))
    (hs : List (String × PyType)) :
    (∀ n d, dictGet (explicitDeclarations bases attrs) n = some d →
      dictGet (mergeDeclarations bases attrs (some hs)) n = some d) ∧
    (∀ n d, dictGet (mergeDeclarations bases attrs (some hs)) n = some d →
      dictGet (explicitDeclarations bases attrs) n = some d ∨
      (∃ t, (n, t) ∈ hs ∧ d = .autoDescriptor n t ∧
        dictGet (explicitDeclarations bases attrs) n = Option.none)) := by
  set E := explicitDeclarations bases attrs with hE
  set A := collectFromHints (E.map Prod.fst) hs [] with hA
  have hmerge : mergeDeclarations bases attrs (some hs) = pyUpdate E A := rfl
  have hAnodup : ((A.map Prod.fst).Nodup) :=
    collectFromHints_nodupKeys _ hs [] (by simp)
  constructor
  · intro n d h
    have hmem : n ∈ E.map Prod.fst := mem_keys_of_dictGet _ _ _ h
    have hAn : dictGet A n = Option.none := by
      rw [hA, collectFromHints_manual _ hs [] n hmem]
      rfl
    have hnotmem : n ∉ A.map Prod.fst := by
      intro hin
      have := dictGet_isSome_of_mem_keys A n hin
      rw [hAn] at this
      simp at this
    rw [hmerge, dictGet_pyUpdate_of_not_mem _ _ _ hnotmem]
    exact h
  · intro n d h
    rw [hmerge] at h
    cases hAn : dictGet A n with
    | none =>
        have hnotmem : n ∉ A.map Prod.fst := by
          intro hin
          have := dictGet_isSome_of_mem_keys A n hin
          rw [hAn] at this
          simp at this
        rw [dictGet_pyUpdate_of_not_mem _ _ _ hnotmem] at h
        exact Or.inl h
    | some d' =>
        have hsome := dictGet_pyUpdate_of_nodup_some E A n d' hAnodup hAn
        rw [h] at hsome
        cases hsome
        rcases collectFromHints_spec _ hs [] n d hAn with h1 | ⟨t, hmem, hdt, hman, _⟩
        · exact absurd h1 (by simp [dictGet])
        · exact Or.inr ⟨t, hmem, hdt,
            dictGet_eq_none_of_not_mem _ _ hman⟩

/-- Witness for `explicit_declarations_take_precedence`: a factory declaring
`id = Constant 1` over a target shape with hints `id : int, age : int`
keeps the explicit `id` descriptor in the merged map. -/
theorem explicit_declarations_take_precedence_witness :
    dictGet (mergeDeclarations [] [("id", .descr (.staticValue (.int 1)))]
        (some [("id", .prim .int), ("age", .prim .int)])) "id" =
      some (.staticValue (.int 1)) :=
  (explicit_declarations_take_precedence [] [("id", .descr (.staticValue (.int 1)))]
    [("id", .prim .int), ("age", .prim .int)]).1 "id" (.staticValue (.int 1)) rfl
